import Mathlib

/-!
# Verification of `analyze-hack.js`

A shallow embedding of the target-ranking script `src/analyze-hack.js`.
JavaScript numbers are modelled as real numbers (`ℝ`); the game's
`ns.formulas.hacking` API is modelled as a `Provider` record of functions
that may throw (`Except Unit ℝ`), so that the script's `try`/`catch`/`finally`
control flow around the Formulas API can be reproduced faithfully.
Mutation of the shared `player` and `server` objects is modelled by explicit
state passing: every function returns the updated objects it mutated.
-/

namespace AnalyzeHack

noncomputable section

/-- The `player.skills` sub-object; only `hacking` is used by the script. -/
structure Skills where
  hacking : ℝ

/-- The player object returned by `ns.getPlayer()`. -/
structure Player where
  skills : Skills

/-- A server object as returned by `ns.getServer`, restricted to the fields the
script reads or writes.  `estHackPercent`, `theoreticalGainRate`, `gainRate`
and `expRate` are attached to the object by the script itself; they default to
`0` standing for the initially-absent (undefined) property. -/
structure Server where
  hostname : String
  moneyMax : ℝ
  moneyAvailable : ℝ
  minDifficulty : ℝ
  hackDifficulty : ℝ
  requiredHackingSkill : ℝ
  hasAdminRights : Bool
  purchasedByPlayer : Bool
  maxRam : ℝ
  estHackPercent : ℝ := 0
  theoreticalGainRate : ℝ := 0
  gainRate : ℝ := 0
  expRate : ℝ := 0

/-- The `ns.formulas.hacking` API.  Each call may throw (the API is absent when
`Formulas.exe` is not owned); a throwing call is an `Except.error`. -/
structure Provider where
  weakenTime : Server → Player → Except Unit ℝ
  growTime : Server → Player → Except Unit ℝ
  hackTime : Server → Player → Except Unit ℝ
  growPercent : Server → ℝ → Player → ℝ → Except Unit ℝ
  hackPercent : Server → Player → Except Unit ℝ
  hackChance : Server → Player → Except Unit ℝ
  hackExp : Server → Player → Except Unit ℝ

/-- `const weakenRam = 1.75` -/
def weakenRam : ℝ := 1.75
/-- `const growRam = 1.75` -/
def growRam : ℝ := 1.75
/-- `const hackRam = 1.7` -/
def hackRam : ℝ := 1.7
/-- `const minHackGain = 1e-10` -/
def minHackGain : ℝ := 1e-10

/-- The expression assigned to `server.estHackPercent` on the formulas path:
`Math.max(minHackGain, Math.min(0.98, Math.min(ramTotal * hackGain / hackCost,
1 - 1 / Math.exp(ramTotal * growGain / growCost))))`. -/
def estHackPercentFormula (ramTotal hackGain hackCost growGain growCost : ℝ) : ℝ :=
  max minHackGain (min 0.98
    (min (ramTotal * hackGain / hackCost)
      (1 - 1 / Real.exp (ramTotal * growGain / growCost))))

/-- The triple `[theoreticalGainRate, cappedGainRate, expRate]` returned by
`getRatesAtHackLevel`. -/
structure RateTriple where
  theoreticalGainRate : ℝ
  cappedGainRate : ℝ
  expRate : ℝ

/-- The state left behind by the `try` block of the formulas path: the
(possibly mutated) server object, the (possibly reassigned) `hackPercent`
closure variable, and whether the low-hack-gain warning was printed. -/
structure TryState where
  server : Server
  hackPercent : ℝ
  warnedLowHackGain : Prop

/-- Full result of one `getRatesAtHackLevel` call: the returned rate triple
plus the state of every object the call mutated. -/
structure EvalResult where
  rates : RateTriple
  server : Server
  player : Player
  hackPercent : ℝ
  warnedLowHackGain : Prop

/-- `server.hackDifficulty = server.minDifficulty; server.moneyAvailable =
server.moneyMax` — the script assumes the target has been prepped before
querying the formulas API. -/
def assumePrepped (s : Server) : Server :=
  { s with hackDifficulty := s.minDifficulty, moneyAvailable := s.moneyMax }

/-- Overwrite `player.skills.hacking`. -/
def withHackingSkill (p : Player) (lvl : ℝ) : Player :=
  { p with skills := { p.skills with hacking := lvl } }

/-- The `try` block of the formulas path of `getRatesAtHackLevel`
(lines 81–147 of `analyze-hack.js`).  A provider call that throws aborts the
block (`none`) but leaves behind whatever mutations already happened.
The `ns.print` logging calls are elided except for the low-hack-gain warning,
which is recorded as `warnedLowHackGain` (the provider is a pure function, so
the repeated `hackChance` call inside the log string returns the same value
and cannot throw anew). -/
def tryBody (ramTotal : ℝ) (fp : Provider) (useEstHackPercent : Bool)
    (server : Server) (player : Player) (hp : ℝ) :
    TryState × Option RateTriple :=
  match fp.weakenTime server player with
  | .error _ => (⟨server, hp, False⟩, none)
  | .ok wt =>
    let weakenCost := weakenRam * wt
    match fp.growTime server player with
    | .error _ => (⟨server, hp, False⟩, none)
    | .ok gt =>
      let growCost := growRam * gt + weakenCost * 0.004 / 0.05
      match fp.hackTime server player with
      | .error _ => (⟨server, hp, False⟩, none)
      | .ok ht =>
        let hackCost := hackRam * ht + weakenCost * 0.002 / 0.05
        match fp.growPercent server 1 player 1 with
        | .error _ => (⟨server, hp, False⟩, none)
        | .ok gp =>
          let growGain := Real.log gp
          match fp.hackPercent server player with
          | .error _ => (⟨server, hp, False⟩, none)
          | .ok hackGain =>
            let warned := hackGain ≤ minHackGain
            let server := { server with
              estHackPercent :=
                estHackPercentFormula ramTotal hackGain hackCost growGain growCost }
            let hp := if useEstHackPercent then server.estHackPercent else hp
            let growsPerCycle := -Real.log (1 - hp) / growGain
            let hacksPerCycle := hp / hackGain
            match fp.hackChance server player with
            | .error _ => (⟨server, hp, warned⟩, none)
            | .ok chance =>
              let hackProfit := server.moneyMax * hp * chance
              let theoreticalGainRate :=
                hackProfit / (growCost * growsPerCycle + hackCost * hacksPerCycle) * 1000
              match fp.hackExp server player with
              | .error _ => (⟨server, hp, warned⟩, none)
              | .ok he =>
                let expRate := he * (1 + 0.002 / 0.05) / hackCost * 1000
                let cappedGainRate := min theoreticalGainRate (hackProfit / ramTotal)
                (⟨server, hp, warned⟩, some ⟨theoreticalGainRate, cappedGainRate, expRate⟩)

/-- The fallback branch of `getRatesAtHackLevel` (lines 156–182), used when the
formulas API is disabled or threw.  `gwt` models `ns.getWeakenTime`, an
external observation keyed by hostname. -/
def fallbackEval (gwt : String → ℝ) (server : Server) (player : Player) (hp : ℝ) :
    EvalResult :=
  let timeToHack := gwt server.hostname / 4
  let cappedTimeToHack := max timeToHack 200
  let relativeExpGain := 3 + server.minDifficulty * 0.3
  let server := { server with estHackPercent := 1 }
  { rates := ⟨server.moneyMax / timeToHack, server.moneyMax / cappedTimeToHack,
      relativeExpGain / timeToHack⟩
    server := server
    player := player
    hackPercent := hp
    warnedLowHackGain := False }

/-- `getRatesAtHackLevel(server, player, hackLevel)` (lines 71–184).  The
`disableFormulasApi` flag is `options['disable-formulas-api']`; `ramTotal`,
`gwt`, `useEstHackPercent` and the `hackPercent` closure variable `hp` are the
surrounding `main` state the closure captures.  The `finally` clause restores
`player.skills.hacking` on every exit path; a throwing provider call is caught
and routes to the fallback. -/
def getRatesAtHackLevel (disableFormulasApi : Bool) (ramTotal : ℝ) (fp : Provider)
    (gwt : String → ℝ) (useEstHackPercent : Bool)
    (server : Server) (player : Player) (hackLevel : ℝ) (hp : ℝ) : EvalResult :=
  if disableFormulasApi then fallbackEval gwt server player hp
  else
    let realPlayerHackSkill := player.skills.hacking
    let t := tryBody ramTotal fp useEstHackPercent
      (assumePrepped server) (withHackingSkill player hackLevel) hp
    let playerRestored :=
      withHackingSkill (withHackingSkill player hackLevel) realPlayerHackSkill
    match t.2 with
    | some r =>
        { rates := r, server := t.1.server, player := playerRestored,
          hackPercent := t.1.hackPercent,
          warnedLowHackGain := t.1.warnedLowHackGain }
    | none =>
        { fallbackEval gwt t.1.server playerRestored t.1.hackPercent with
          warnedLowHackGain := t.1.warnedLowHackGain }

/-- The command-line options recognized by the script (`argsSchema`).
`hackPercentOpt` is the raw `--hack-percent` flag value; its default `-1`
means "estimate automatically".  `atHackLevel = 0` means "use the player's
current hack level". -/
structure Options where
  all : Bool
  atHackLevel : ℝ
  hackPercentOpt : ℝ
  includeHacknetRam : Bool
  disableFormulasApi : Bool

/-- A record of the serialized output written to `/Temp/analyze-hack.txt`:
`{ hostname, gainRate, expRate }`. -/
structure RankedRecord where
  hostname : String
  gainRate : ℝ
  expRate : ℝ

/-- `servers.reduce(...)` (lines 55–62): total RAM over rooted servers,
skipping `hacknet` hosts unless `--include-hacknet-ram` is set. -/
def computeRamTotal (opts : Options) (servers : List Server) : ℝ :=
  servers.foldl
    (fun total s =>
      if !s.hasAdminRights || (s.hostname.startsWith "hacknet" && !opts.includeHacknetRam)
      then total
      else total + s.maxRam)
    0

/-- `toSorted((a, b) => b.gainRate - a.gainRate)`: a stable non-mutating sort,
descending by `gainRate`. -/
def sortByDescGainRate (l : List Server) : List Server :=
  List.insertionSort (fun a b => b.gainRate ≤ a.gainRate) l

/-- `toSorted((a, b) => b.expRate - a.expRate)`: a stable non-mutating sort,
descending by `expRate`. -/
def sortByDescExpRate (l : List Server) : List Server :=
  List.insertionSort (fun a b => b.expRate ≤ a.expRate) l

/-- `sort((a, b) => a.requiredHackingSkill - b.requiredHackingSkill)`:
ascending by required hacking skill (applied to a freshly filtered array, so
the in-place mutation is unobservable). -/
def sortByAscRequiredSkill (l : List Server) : List Server :=
  List.insertionSort (fun a b => a.requiredHackingSkill ≤ b.requiredHackingSkill) l

/-- The `.map` body over unlocked servers (lines 202–208): evaluate each server
at the player's current hack level and attach the rates to the server object.
The shared `player` object and the `hackPercent` closure variable are threaded
through the traversal. -/
def unlockedPass (d : Bool) (rt : ℝ) (fp : Provider) (gwt : String → ℝ)
    (useEst : Bool) (servers : List Server) (player : Player) (hp : ℝ) :
    List Server × Player × ℝ :=
  servers.foldl
    (fun acc server =>
      match acc with
      | (done, player, hp) =>
        let r := getRatesAtHackLevel d rt fp gwt useEst server player
          player.skills.hacking hp
        let s := { r.server with
          theoreticalGainRate := r.rates.theoreticalGainRate,
          gainRate := r.rates.cappedGainRate,
          expRate := r.rates.expRate }
        (done ++ [s], r.player, r.hackPercent))
    ([], player, hp)

/-- First evaluation of the locked-server `.map` body (lines 228–233): rates of
the best unlocked server at the locked server's required skill. -/
def lockedBestEval (d : Bool) (rt : ℝ) (fp : Provider) (gwt : String → ℝ)
    (useEst : Bool) (best : Server) (player : Player) (hp : ℝ) (server : Server) :
    EvalResult :=
  getRatesAtHackLevel d rt fp gwt useEst best player server.requiredHackingSkill hp

/-- Second evaluation of the locked-server `.map` body (lines 240–241): rates of
the locked server itself at its required skill, after the best-server
evaluation has updated the shared state. -/
def lockedTargetEval (d : Bool) (rt : ℝ) (fp : Provider) (gwt : String → ℝ)
    (useEst : Bool) (best : Server) (player : Player) (hp : ℝ) (server : Server) :
    EvalResult :=
  let r1 := lockedBestEval d rt fp gwt useEst best player hp server
  getRatesAtHackLevel d rt fp gwt useEst server r1.player
    server.requiredHackingSkill r1.hackPercent

/-- One iteration of the locked-server `.map` body (lines 225–258): compute the
scale factors from the best unlocked server (a zero or falsy denominator
defaults the factor to `1`), evaluate the locked server at its required skill,
scale the theoretical and exp rates, and cap the final gain rate with the
unrescaled capped rate.  Returns the evaluated server plus the mutated shared
state `(best, player, hackPercent)`. -/
def lockedStep (d : Bool) (rt : ℝ) (fp : Provider) (gwt : String → ℝ)
    (useEst : Bool) (best : Server) (player : Player) (hp : ℝ) (server : Server) :
    Server × Server × Player × ℝ :=
  let r1 := lockedBestEval d rt fp gwt useEst best player hp server
  let gainRateScaleFactor :=
    if r1.rates.theoreticalGainRate = 0 then 1
    else r1.server.theoreticalGainRate / r1.rates.theoreticalGainRate
  let expRateScaleFactor :=
    if r1.rates.expRate = 0 then 1
    else r1.server.expRate / r1.rates.expRate
  let r2 := lockedTargetEval d rt fp gwt useEst best player hp server
  let s := { r2.server with
    theoreticalGainRate := r2.rates.theoreticalGainRate * gainRateScaleFactor,
    expRate := r2.rates.expRate * expRateScaleFactor,
    gainRate := min (r2.rates.theoreticalGainRate * gainRateScaleFactor)
      r2.rates.cappedGainRate }
  (s, r1.server, r2.player, r2.hackPercent)

/-- The `.map` over locked servers (lines 221–259), threading the mutated best
unlocked server, player and `hackPercent` through the iterations. -/
def lockedPass (d : Bool) (rt : ℝ) (fp : Provider) (gwt : String → ℝ)
    (useEst : Bool) (best : Server) (player : Player) (hp : ℝ)
    (servers : List Server) : List Server × Server × Player × ℝ :=
  servers.foldl
    (fun acc server =>
      match acc with
      | (done, best, player, hp) =>
        let r := lockedStep d rt fp gwt useEst best player hp server
        (done ++ [r.1], r.2))
    ([], best, player, hp)

/-- The evaluation core of `main` (lines 36–261): option validation, optional
`--at-hack-level` override, RAM aggregation, server filtering, the unlocked
pass, best-unlocked selection, and the locked pass.  Returns the final
`serverEval` array (`unlockedServers.concat(lockedServers)`), or `none` when
the script aborts (invalid `--hack-percent`) or crashes (no unlocked server,
so `bestUnlockedServer` is `undefined`). -/
def analyzeHack (opts : Options) (fp : Provider) (gwt : String → ℝ)
    (servers0 : List Server) (player0 : Player) : Option (List Server) :=
  let hackPercent0 := opts.hackPercentOpt / 100
  let useEstHackPercent : Bool := decide (opts.hackPercentOpt = -1)
  if ¬useEstHackPercent = true ∧ (hackPercent0 ≤ 0 ∨ 1 ≤ hackPercent0) then none
  else
    let player1 :=
      if opts.atHackLevel = 0 then player0 else withHackingSkill player0 opts.atHackLevel
    let ramTotal := computeRamTotal opts servers0
    let servers1 := servers0.filter fun s =>
      !s.purchasedByPlayer && decide (0 < s.moneyMax) &&
        (opts.all ||
          (s.hasAdminRights && decide (s.requiredHackingSkill ≤ player1.skills.hacking)))
    let up := unlockedPass opts.disableFormulasApi ramTotal fp gwt useEstHackPercent
      (servers1.filter fun s => decide (s.requiredHackingSkill ≤ player1.skills.hacking))
      player1 hackPercent0
    match (sortByDescGainRate up.1).head? with
    | none => none
    | some best =>
      let lp := lockedPass opts.disableFormulasApi ramTotal fp gwt useEstHackPercent
        best up.2.1 up.2.2
        (sortByAscRequiredSkill
          (servers1.filter fun s => decide (up.2.1.skills.hacking < s.requiredHackingSkill)))
      some (up.1 ++ lp.1)

/-- The serialized list written to `/Temp/analyze-hack.txt` (lines 303–313):
`serverEval.map(s => ({ hostname, gainRate, expRate }))`. -/
def rankedRecordsOf (serverEval : List Server) : List RankedRecord :=
  serverEval.map fun s => ⟨s.hostname, s.gainRate, s.expRate⟩

/-- The servers displayed in the exp listing (lines 296–300): the loop prints
`serverEval[i]` for `i < Math.min(5, serverEval.length)`. -/
def expListing (serverEval : List Server) : List Server :=
  serverEval.take 5

/-- A formulas API whose every call throws: `Formulas.exe` not owned. -/
def errProvider : Provider where
  weakenTime := fun _ _ => .error ()
  growTime := fun _ _ => .error ()
  hackTime := fun _ _ => .error ()
  growPercent := fun _ _ _ _ => .error ()
  hackPercent := fun _ _ => .error ()
  hackChance := fun _ _ => .error ()
  hackExp := fun _ _ => .error ()

/-- A formulas API returning fixed values: `weakenTime wt`, `growTime gt`,
`hackTime ht`, `growPercent gp`, `hackPercent hg`, `hackChance hc`,
`hackExp he`. -/
def constProvider (wt gt ht gp hg hc he : ℝ) : Provider where
  weakenTime := fun _ _ => .ok wt
  growTime := fun _ _ => .ok gt
  hackTime := fun _ _ => .ok ht
  growPercent := fun _ _ _ _ => .ok gp
  hackPercent := fun _ _ => .ok hg
  hackChance := fun _ _ => .ok hc
  hackExp := fun _ _ => .ok he

/-- An observed weaken time of 4000 ms on every host. -/
def flatWeakenTime : String → ℝ := fun _ => 4000

/-- Concrete run for the ordering claims: an unlocked low-value server.
Required skill 50, max money 1000, min difficulty 10. -/
def alphaServer : Server where
  hostname := "alpha"
  moneyMax := 1000
  moneyAvailable := 1000
  minDifficulty := 10
  hackDifficulty := 50
  requiredHackingSkill := 50
  hasAdminRights := true
  purchasedByPlayer := false
  maxRam := 8

/-- Concrete run for the ordering claims: a locked high-value server.
Required skill 200, max money 8,000,000, min difficulty 90. -/
def betaServer : Server where
  hostname := "beta"
  moneyMax := 8000000
  moneyAvailable := 8000000
  minDifficulty := 90
  hackDifficulty := 90
  requiredHackingSkill := 200
  hasAdminRights := true
  purchasedByPlayer := false
  maxRam := 0

/-- A player at hacking skill 100. -/
def runPlayer : Player := ⟨⟨100⟩⟩

/-- Options for the concrete ordering run: `--all`, formulas API disabled by
policy, everything else at its default. -/
def runOpts : Options where
  all := true
  atHackLevel := 0
  hackPercentOpt := -1
  includeHacknetRam := false
  disableFormulasApi := true

/-- The `serverEval` list produced by the concrete two-server run. -/
def bugRun : Option (List Server) :=
  analyzeHack runOpts errProvider flatWeakenTime [alphaServer, betaServer] runPlayer

/-- Scenario A target: max money 1,000,000, min difficulty 10. -/
def scenarioAServer : Server where
  hostname := "delta"
  moneyMax := 1000000
  moneyAvailable := 1000000
  minDifficulty := 10
  hackDifficulty := 10
  requiredHackingSkill := 1
  hasAdminRights := true
  purchasedByPlayer := false
  maxRam := 0

/-- A target for exercising the low-hack-gain path. -/
def gammaServer : Server where
  hostname := "gamma"
  moneyMax := 1000
  moneyAvailable := 800
  minDifficulty := 5
  hackDifficulty := 20
  requiredHackingSkill := 10
  hasAdminRights := true
  purchasedByPlayer := false
  maxRam := 32

/-- A formulas API reporting a hack gain of `1e-12`, below the `1e-10` floor:
weaken time 0, grow and hack times 100, growth factor 2 per thread,
hack chance 1, hack exp 17. -/
def lowGainFp : Provider := constProvider 0 100 100 2 1e-12 1 17

/- ------------------------------------------------------------------ -/
/- Helper lemmas                                                       -/
/- ------------------------------------------------------------------ -/

theorem exp_half_mul_self : Real.exp (1/2) * Real.exp (1/2) = Real.exp 1 := by
  rw [← Real.exp_add]; norm_num

theorem exp_half_lt : Real.exp (1/2 : ℝ) < 1.6495 := by
  nlinarith [Real.exp_one_lt_d9, Real.exp_pos (1/2 : ℝ), exp_half_mul_self]

theorem lt_exp_half : (1.6465 : ℝ) < Real.exp (1/2) := by
  nlinarith [Real.exp_one_gt_d9, Real.exp_pos (1/2 : ℝ), exp_half_mul_self]

/-- The `finally` clause undoes the temporary skill override exactly. -/
theorem withHackingSkill_restore (p : Player) (lvl : ℝ) :
    withHackingSkill (withHackingSkill p lvl) p.skills.hacking = p := rfl

/- ------------------------------------------------------------------ -/
/- Claim theorems                                                      -/
/- ------------------------------------------------------------------ -/

/-- C1: the merged `serverEval` list that the script displays in full and
serializes to the persistence sink is NOT sorted in descending order of final
gain rate.  `toSorted` is non-mutating and its result is used only to pick
`bestServer`, so the displayed/persisted list stays in evaluation order
(unlocked servers first, then locked servers ascending by required skill).
In the concrete two-server run the persisted gain rates are `[1, 8000]`
— ascending, not descending — while the discarded `toSorted` view would have
been `[8000, 1]`. -/
theorem persisted_list_not_sorted_by_gain_rate :
    (bugRun.map fun l => (rankedRecordsOf l).map RankedRecord.gainRate)
      = some [1, 8000] ∧
    (bugRun.map fun l => (sortByDescGainRate l).map Server.gainRate)
      = some [8000, 1] ∧
    ¬ List.Pairwise (fun a b : ℝ => b ≤ a) [1, 8000] := by
  refine ⟨?_, ?_, by norm_num [List.pairwise_cons]⟩ <;>
  · simp only [bugRun, analyzeHack, unlockedPass, lockedPass, lockedStep,
      lockedBestEval, lockedTargetEval, getRatesAtHackLevel, fallbackEval,
      sortByDescGainRate, sortByAscRequiredSkill, computeRamTotal, rankedRecordsOf,
      List.insertionSort, List.orderedInsert, List.foldl, List.filter,
      runOpts, runPlayer, alphaServer, betaServer, flatWeakenTime]
    norm_num

/-- C2 counterexample: a target evaluated via the fallback heuristic model gets
an estimated extraction fraction of exactly `1`, which violates the claimed
bound `f ≤ 0.98`. -/
theorem fallback_fraction_violates_cap :
    (getRatesAtHackLevel true 1 errProvider flatWeakenTime false alphaServer
        runPlayer 10 0.5).server.estHackPercent = 1 ∧
    ¬ (getRatesAtHackLevel true 1 errProvider flatWeakenTime false alphaServer
        runPlayer 10 0.5).server.estHackPercent ≤ 0.98 := by
  refine ⟨rfl, ?_⟩
  show ¬ (1 : ℝ) ≤ 0.98
  norm_num

/-- C2 amended: the estimated extraction fraction satisfies `0 < f ≤ 0.98` for
every evaluation on the Formula-Provider path, while every evaluation via the
fallback heuristic model sets `f = 1` exactly. -/
theorem fraction_bounds_per_model :
    (∀ rt hg hc gg gc : ℝ, 0 < estHackPercentFormula rt hg hc gg gc ∧
        estHackPercentFormula rt hg hc gg gc ≤ 0.98) ∧
    (∀ (gwt : String → ℝ) (s : Server) (p : Player) (hp : ℝ),
        (fallbackEval gwt s p hp).server.estHackPercent = 1) := by
  constructor
  · intro rt hg hc gg gc
    unfold estHackPercentFormula minHackGain
    exact ⟨lt_of_lt_of_le (by norm_num) (le_max_left _ _),
      max_le (by norm_num) (min_le_left _ _)⟩
  · intro gwt s p hp; rfl

/-- C3: the player object's real hacking skill is identical before and after
every `getRatesAtHackLevel` call — for any provider behaviour, including
providers that throw at any point of the `try` block (the `finally` clause
restores the saved value on every exit path). -/
theorem eval_preserves_player_hacking_skill (d : Bool) (rt : ℝ) (fp : Provider)
    (gwt : String → ℝ) (useEst : Bool) (s : Server) (p : Player) (lvl hp : ℝ) :
    (getRatesAtHackLevel d rt fp gwt useEst s p lvl hp).player.skills.hacking
      = p.skills.hacking := by
  simp only [getRatesAtHackLevel]
  split
  · simp [fallbackEval]
  · split <;> simp [withHackingSkill, fallbackEval]

/-- C4: when the formulas API is disabled by policy the evaluation is exactly
the fallback heuristic; and whenever the `try` block throws (returns `none`),
the exception is caught locally and the evaluation equals the fallback
heuristic run on the partially mutated state — in both cases a full
`EvalResult` (and hence a rate triple) is returned and nothing propagates. -/
theorem provider_failure_caught_uses_fallback :
    (∀ (rt : ℝ) (fp : Provider) (gwt : String → ℝ) (useEst : Bool) (s : Server)
        (p : Player) (lvl hp : ℝ),
      getRatesAtHackLevel true rt fp gwt useEst s p lvl hp = fallbackEval gwt s p hp) ∧
    (∀ (rt : ℝ) (fp : Provider) (gwt : String → ℝ) (useEst : Bool) (s : Server)
        (p : Player) (lvl hp : ℝ) (st : TryState),
      tryBody rt fp useEst (assumePrepped s) (withHackingSkill p lvl) hp = (st, none) →
      getRatesAtHackLevel false rt fp gwt useEst s p lvl hp
        = { fallbackEval gwt st.server p st.hackPercent with
            warnedLowHackGain := st.warnedLowHackGain }) := by
  constructor
  · intro rt fp gwt useEst s p lvl hp
    simp [getRatesAtHackLevel]
  · intro rt fp gwt useEst s p lvl hp st h
    unfold getRatesAtHackLevel
    simp only [Bool.false_eq_true, if_false, h]
    rw [withHackingSkill_restore]

/-- Witness for C4: a provider whose first call throws makes the `try` block
fail immediately, and the evaluation is the fallback heuristic. -/
theorem provider_failure_caught_uses_fallback_witness :
    tryBody 1 errProvider false (assumePrepped alphaServer)
        (withHackingSkill runPlayer 5) (1/2)
      = (⟨assumePrepped alphaServer, 1/2, False⟩, none) ∧
    getRatesAtHackLevel false 1 errProvider flatWeakenTime false alphaServer
        runPlayer 5 (1/2)
      = { fallbackEval flatWeakenTime (assumePrepped alphaServer) runPlayer (1/2) with
          warnedLowHackGain := False } :=
  ⟨rfl, provider_failure_caught_uses_fallback.2 1 errProvider flatWeakenTime false
    alphaServer runPlayer 5 (1/2) ⟨assumePrepped alphaServer, 1/2, False⟩ rfl⟩

/-- C5: in auto mode the estimated extraction fraction equals
`max(1e-10, min(0.98, min(C·g_h/hackCost, 1 − e^(−C·g_g/growCost))))`, and at
`C = 1000`, `g_h = 0.02`, `g_g = 0.1`, `hackCost = 50`, `growCost = 200` it
equals `1 − e^(−1/2) ≈ 0.3935` (within `0.001`). -/
theorem auto_mode_fraction_formula_scenario_b :
    (∀ rt gh hc gg gc : ℝ,
      estHackPercentFormula rt gh hc gg gc
        = max 1e-10 (min 0.98 (min (rt * gh / hc) (1 - Real.exp (-(rt * gg / gc)))))) ∧
    estHackPercentFormula 1000 0.02 50 0.1 200 = 1 - Real.exp (-(1/2)) ∧
    |estHackPercentFormula 1000 0.02 50 0.1 200 - 0.3935| < 0.001 := by
  refine ⟨fun rt gh hc gg gc => ?_, ?_⟩
  · unfold estHackPercentFormula minHackGain
    rw [Real.exp_neg, one_div]
  · have hpos := Real.exp_pos (1/2 : ℝ)
    have h1 : 1 / Real.exp (1/2 : ℝ) < 0.6075 := by
      rw [div_lt_iff₀ hpos]; nlinarith [lt_exp_half]
    have h2 : (0.6055 : ℝ) < 1 / Real.exp (1/2) := by
      rw [lt_div_iff₀ hpos]; nlinarith [exp_half_lt]
    unfold estHackPercentFormula minHackGain
    have harg : (1000 * 0.1 / 200 : ℝ) = 1/2 := by norm_num
    rw [harg]
    have hmin1 : min (1000 * 0.02 / 50 : ℝ) (1 - 1/Real.exp (1/2))
        = 1 - 1/Real.exp (1/2) := min_eq_right (by nlinarith)
    rw [hmin1]
    have hmin2 : min (0.98 : ℝ) (1 - 1/Real.exp (1/2)) = 1 - 1/Real.exp (1/2) :=
      min_eq_right (by nlinarith)
    rw [hmin2]
    have hmax : max (1e-10 : ℝ) (1 - 1/Real.exp (1/2)) = 1 - 1/Real.exp (1/2) :=
      max_eq_right (by nlinarith)
    rw [hmax]
    constructor
    · rw [Real.exp_neg, one_div]
    · rw [abs_lt]; constructor <;> nlinarith

/-- C6: the fallback heuristic computes hack time as a quarter of the observed
weaken time, caps the time at 200 ms for the capped rate only, and yields
`maxMoney/hackTime`, `maxMoney/cappedTime`, `(3 + minDifficulty·0.3)/hackTime`;
with max money 1,000,000, min difficulty 10 and observed weaken time 400,000
this gives rates `(10, 10, 6.0e-5)`. -/
theorem fallback_model_rates_scenario_a :
    (∀ (gwt : String → ℝ) (s : Server) (p : Player) (hp : ℝ),
      (fallbackEval gwt s p hp).rates
        = ⟨s.moneyMax / (gwt s.hostname / 4), s.moneyMax / max (gwt s.hostname / 4) 200,
            (3 + s.minDifficulty * 0.3) / (gwt s.hostname / 4)⟩) ∧
    (fallbackEval (fun _ => 400000) scenarioAServer runPlayer (-0.01)).rates
      = ⟨10, 10, 6e-5⟩ := by
  constructor
  · intro gwt s p hp; rfl
  · simp only [fallbackEval, scenarioAServer]
    norm_num [max_def]

/-- C7: for a locked server the stored theoretical rate is the hypothetical
theoretical rate times the gain scale factor, and the final gain rate is the
minimum of that scaled theoretical rate and the server's own hypothetical
capped rate, which is NOT rescaled. -/
theorem locked_gain_min_scaled_theoretical_unscaled_cap (d : Bool) (rt : ℝ)
    (fp : Provider) (gwt : String → ℝ) (useEst : Bool) (best : Server)
    (player : Player) (hp : ℝ) (server : Server) :
    (lockedStep d rt fp gwt useEst best player hp server).1.theoreticalGainRate
      = (lockedTargetEval d rt fp gwt useEst best player hp server).rates.theoreticalGainRate *
        (if (lockedBestEval d rt fp gwt useEst best player hp server).rates.theoreticalGainRate = 0
         then 1
         else (lockedBestEval d rt fp gwt useEst best player hp server).server.theoreticalGainRate /
           (lockedBestEval d rt fp gwt useEst best player hp server).rates.theoreticalGainRate) ∧
    (lockedStep d rt fp gwt useEst best player hp server).1.gainRate
      = min
        ((lockedTargetEval d rt fp gwt useEst best player hp server).rates.theoreticalGainRate *
          (if (lockedBestEval d rt fp gwt useEst best player hp server).rates.theoreticalGainRate = 0
           then 1
           else (lockedBestEval d rt fp gwt useEst best player hp server).server.theoreticalGainRate /
             (lockedBestEval d rt fp gwt useEst best player hp server).rates.theoreticalGainRate))
        (lockedTargetEval d rt fp gwt useEst best player hp server).rates.cappedGainRate :=
  ⟨rfl, rfl⟩

/-- C8 counterexample: with a provider reporting hack gain `1e-12` (at or
below the floor `1e-10`), the per-cycle derivation divides by the RAW hack
gain, not by the floored value: the theoretical rate of the concrete run is
`500000/85000000000175` (denominator `170 · (0.5/1e-12) + 175`), which differs
from `500000/850000000175`, the value the claimed coercion of the hack gain to
`1e-10` would produce. -/
theorem per_cycle_uses_raw_hack_gain :
    ((tryBody 100 lowGainFp false gammaServer runPlayer 0.5).2.map
        fun r => r.theoreticalGainRate) = some (500000 / 85000000000175) ∧
    (500000 / 85000000000175 : ℝ) ≠ 500000 / 850000000175 ∧
    (1e-12 : ℝ) ≤ minHackGain := by
  have hlog : -Real.log (1 - 0.5) / Real.log 2 = 1 := by
    have h : (1 - 0.5 : ℝ) = 2⁻¹ := by norm_num
    rw [h, Real.log_inv, neg_neg, div_self (ne_of_gt (Real.log_pos one_lt_two))]
  refine ⟨?_, by norm_num, by unfold minHackGain; norm_num⟩
  simp only [tryBody, lowGainFp, constProvider, gammaServer, Option.map_some',
    Bool.false_eq_true, if_false]
  rw [hlog]
  norm_num [growRam, hackRam]

/-- C8 amended: whenever the provider's hack gain is at or below `1e-10` the
warning is logged and the computation continues non-fatally; the `1e-10`
floor is applied to the estimated extraction fraction
(`estHackPercent = max(1e-10, …)`), not to the hack-gain value itself, and the
subsequent per-cycle derivations use the raw hack gain. -/
theorem low_hack_gain_warns_floors_fraction :
    (∀ rt gh hc gg gc : ℝ, minHackGain ≤ estHackPercentFormula rt gh hc gg gc) ∧
    (∀ (rt wt gt ht gp hg hc he hp : ℝ) (useEst : Bool) (s : Server) (p : Player),
      hg ≤ minHackGain →
      (tryBody rt (constProvider wt gt ht gp hg hc he) useEst s p hp).1.warnedLowHackGain ∧
      ((tryBody rt (constProvider wt gt ht gp hg hc he) useEst s p hp).2.isSome = true)) := by
  constructor
  · intro rt gh hc gg gc
    exact le_max_left _ _
  · intro rt wt gt ht gp hg hc he hp useEst s p h
    exact ⟨h, rfl⟩

/-- Witness for C8 amended: hack gain `1e-12` is below the floor; the run
warns and still returns a rate triple. -/
theorem low_hack_gain_warns_floors_fraction_witness :
    (1e-12 : ℝ) ≤ minHackGain ∧
    ((tryBody 100 (constProvider 0 100 100 2 1e-12 1 17) false gammaServer
        runPlayer 0.5).1.warnedLowHackGain ∧
      ((tryBody 100 (constProvider 0 100 100 2 1e-12 1 17) false gammaServer
        runPlayer 0.5).2.isSome = true)) :=
  ⟨by unfold minHackGain; norm_num,
    low_hack_gain_warns_floors_fraction.2 100 0 100 100 2 1e-12 1 17 0.5 false
      gammaServer runPlayer (by unfold minHackGain; norm_num)⟩

/-- C9: the exp listing prints `serverEval[i]` for `i < min(5, length)` of the
UNSORTED merged list — the `toSorted`-by-exp view is discarded except for
`bestExpServer` — so it is not the top five targets in descending exp-rate
order.  In the concrete two-server run the listing shows exp rates
`[3/500, 3/100]` (ascending), while the sorted view would have been
`[3/100, 3/500]`. -/
theorem exp_listing_not_sorted_by_exp_rate :
    (bugRun.map fun l => (expListing l).map Server.expRate)
      = some [3/500, 3/100] ∧
    (bugRun.map fun l => (sortByDescExpRate l).map Server.expRate)
      = some [3/100, 3/500] ∧
    ¬ List.Pairwise (fun a b : ℝ => b ≤ a) [3/500, 3/100] := by
  refine ⟨?_, ?_, by norm_num [List.pairwise_cons]⟩ <;>
  · simp only [bugRun, analyzeHack, unlockedPass, lockedPass, lockedStep,
      lockedBestEval, lockedTargetEval, getRatesAtHackLevel, fallbackEval,
      sortByDescGainRate, sortByAscRequiredSkill, sortByDescExpRate, computeRamTotal,
      expListing, List.insertionSort, List.orderedInsert, List.foldl, List.filter,
      List.take, runOpts, runPlayer, alphaServer, betaServer, flatWeakenTime]
    norm_num

/-- C10: an evaluation that takes the Formula-Provider path mutates the target
object: after the call returns, the target's `hackDifficulty` equals its
`minDifficulty`, its `moneyAvailable` equals its `moneyMax`, and
`estHackPercent` holds the computed extraction fraction; the difficulty field
genuinely changed (none of these fields are restored). -/
theorem formulas_path_mutates_server_fields (rt wt gt ht gp hg hc he : ℝ)
    (gwt : String → ℝ) (useEst : Bool) (s : Server) (p : Player) (lvl hp : ℝ)
    (hdiff : s.hackDifficulty ≠ s.minDifficulty) :
    (getRatesAtHackLevel false rt (constProvider wt gt ht gp hg hc he) gwt useEst
        s p lvl hp).server.hackDifficulty = s.minDifficulty ∧
    (getRatesAtHackLevel false rt (constProvider wt gt ht gp hg hc he) gwt useEst
        s p lvl hp).server.moneyAvailable = s.moneyMax ∧
    (getRatesAtHackLevel false rt (constProvider wt gt ht gp hg hc he) gwt useEst
        s p lvl hp).server.hackDifficulty ≠ s.hackDifficulty ∧
    (getRatesAtHackLevel false rt (constProvider wt gt ht gp hg hc he) gwt useEst
        s p lvl hp).server.estHackPercent
      = estHackPercentFormula rt hg (hackRam * ht + weakenRam * wt * 0.002 / 0.05)
          (Real.log gp) (growRam * gt + weakenRam * wt * 0.004 / 0.05) := by
  refine ⟨rfl, rfl, ?_, rfl⟩
  show s.minDifficulty ≠ s.hackDifficulty
  exact Ne.symm hdiff

/-- Witness for C10: the concrete target starts at difficulty 50 with minimum
10, and the call leaves it mutated. -/
theorem formulas_path_mutates_server_fields_witness :
    alphaServer.hackDifficulty ≠ alphaServer.minDifficulty ∧
    ((getRatesAtHackLevel false 1 (constProvider 2 2 2 2 2 2 2) flatWeakenTime false
        alphaServer runPlayer 500 0.5).server.hackDifficulty = alphaServer.minDifficulty ∧
      (getRatesAtHackLevel false 1 (constProvider 2 2 2 2 2 2 2) flatWeakenTime false
        alphaServer runPlayer 500 0.5).server.moneyAvailable = alphaServer.moneyMax ∧
      (getRatesAtHackLevel false 1 (constProvider 2 2 2 2 2 2 2) flatWeakenTime false
        alphaServer runPlayer 500 0.5).server.hackDifficulty ≠ alphaServer.hackDifficulty ∧
      (getRatesAtHackLevel false 1 (constProvider 2 2 2 2 2 2 2) flatWeakenTime false
        alphaServer runPlayer 500 0.5).server.estHackPercent
        = estHackPercentFormula 1 2 (hackRam * 2 + weakenRam * 2 * 0.002 / 0.05)
            (Real.log 2) (growRam * 2 + weakenRam * 2 * 0.004 / 0.05)) :=
  ⟨by norm_num [alphaServer],
    formulas_path_mutates_server_fields 1 2 2 2 2 2 2 2 flatWeakenTime false
      alphaServer runPlayer 500 0.5 (by norm_num [alphaServer])⟩

end

end AnalyzeHack
